import Mathlib

/- Verification of the reference-image selection / generation pipeline of the
`ai` router (`app/routers/ai.py`).

The Python source is shallowly embedded: pure helpers become Lean functions,
network calls (Supabase queries, Gemini embedding / vision / generation calls,
image downloads) become explicit oracle parameters returning `Except` or
`Option` values, and Python exceptions become `Except` error values.  Python
floats are embedded as `ℚ` where only ordering matters (similarity scores) and
as `ℝ` for the analytic facts about `_cosine_similarity` (which uses an exact
square root).  Python's stable `list.sort(reverse=True)` is embedded as a
stable descending insertion sort, which is extensionally the unique stable
descending sort.
-/

namespace AiRouter

/- ── Constants from the top of `ai.py` ─────────────────────────────── -/

def MAX_REFERENCE_IMAGES : Nat := 14
def GEMINI_MAX_RETRIES : Nat := 3
def GEMINI_RETRY_BASE_DELAY : Nat := 2
def EMBED_BATCH_SIZE : Nat := 200
def VISION_RERANK_BATCH_SIZE : Nat := 8
def VISION_RERANK_MAX_RETRIES : Nat := 3
def VISION_RERANK_RETRY_BASE_DELAY : Nat := 2

/- ── Generic string helpers ────────────────────────────────────────── -/

/-- Predicate `listStartsWith needle hay` is true when `needle` is an initial segment of
`hay`; used to embed Python's substring test (`"x" in s`). -/
def listStartsWith [DecidableEq α] : List α → List α → Bool
  | [], _ => true
  | _ :: _, [] => false
  | a :: as, b :: bs => a = b && listStartsWith as bs

/-- Predicate `listOccurs needle hay`: `needle` occurs contiguously inside `hay`. -/
def listOccurs [DecidableEq α] (needle : List α) : List α → Bool
  | [] => listStartsWith needle []
  | b :: bs => listStartsWith needle (b :: bs) || listOccurs needle bs

/-- Embedding of Python's `needle in hay` substring test on strings. -/
def strOccurs (needle hay : String) : Bool :=
  listOccurs needle.toList hay.toList

/- ── Data model: analysis results and dataset image rows ───────────── -/

/-- The `colors` key of an `analysis_result` may hold either a string or a
list of strings (the code normalizes list values by joining with `", "`). -/
inductive ColorsField where
  | asStr (v : String)
  | asList (v : List String)
deriving DecidableEq

/-- The semi-structured `analysis_result` document attached to a dataset
image.  A missing key is embedded as `""` / `[]` (the `.get` defaults used by
the code). -/
structure AnalysisResult where
  tags : List String
  key_elements : List String
  theme : String
  image_style : String
  vibe : String
  colors : ColorsField
  lighting : String
  description : String
deriving DecidableEq

/-- A `dataset_images` row as consumed by the ranking pipeline. -/
structure ImageRecord where
  image_url : String
  analysis_result : Option AnalysisResult
deriving DecidableEq

/-- Embedding of `_build_image_search_text`: build the embedding search text
from an image's analysis result, in the fixed field order of the source.
`none` embeds a missing/empty (`{}`/falsy) `analysis_result`. -/
def _build_image_search_text : Option AnalysisResult → String
  | none => ""
  | some a =>
    let parts : List String :=
      (if a.tags ≠ [] then ["Tags: " ++ String.intercalate ", " a.tags] else [])
      ++ (if a.key_elements ≠ [] then
            ["Key elements: " ++ String.intercalate ", " a.key_elements] else [])
      ++ (if a.theme ≠ "" then ["Theme: " ++ a.theme] else [])
      ++ (if a.image_style ≠ "" then ["Style: " ++ a.image_style] else [])
      ++ (if a.vibe ≠ "" then ["Mood: " ++ a.vibe] else [])
      ++ (let colorsText := match a.colors with
            | .asList v => String.intercalate ", " v
            | .asStr v => v
          if colorsText ≠ "" then ["Colors: " ++ colorsText] else [])
      ++ (if a.lighting ≠ "" then ["Lighting: " ++ a.lighting] else [])
      ++ (if a.description ≠ "" then ["Description: " ++ a.description] else [])
    String.intercalate ". " parts

/- ── Python's stable descending sort ───────────────────────────────── -/

section SortDesc

variable {α : Type} {K : Type} [LinearOrder K]

/-- Insert `x` into an already (descending-)sorted list, placing it after
every element with a strictly larger key and before the first element with a
key `≤ key x`.  This embeds one step of a stable descending sort. -/
def insertByDesc (key : α → K) (x : α) : List α → List α
  | [] => [x]
  | y :: ys => if key y ≤ key x then x :: y :: ys else y :: insertByDesc key x ys

/-- Embedding of Python's `list.sort(key=…, reverse=True)`: a stable sort in
descending key order (equal keys keep their original relative order). -/
def pySortDesc (key : α → K) : List α → List α
  | [] => []
  | x :: xs => insertByDesc key x (pySortDesc key xs)

theorem insertByDesc_perm (key : α → K) (x : α) (l : List α) :
    List.Perm (insertByDesc key x l) (x :: l) := by
  induction l with
  | nil => simp [insertByDesc]
  | cons y ys ih =>
    rw [insertByDesc]
    split
    · exact List.Perm.refl _
    · exact ((ih.cons y).trans (List.Perm.swap x y ys))

theorem pySortDesc_perm (key : α → K) (l : List α) :
    List.Perm (pySortDesc key l) l := by
  induction l with
  | nil => simp [pySortDesc]
  | cons x xs ih =>
    rw [pySortDesc]
    exact (insertByDesc_perm key x _).trans (ih.cons x)

theorem pySortDesc_length (key : α → K) (l : List α) :
    (pySortDesc key l).length = l.length :=
  (pySortDesc_perm key l).length_eq

theorem insertByDesc_pairwise (key : α → K) (x : α) (l : List α)
    (h : l.Pairwise (fun a b => key b ≤ key a)) :
    (insertByDesc key x l).Pairwise (fun a b => key b ≤ key a) := by
  induction l with
  | nil => simp [insertByDesc]
  | cons y ys ih =>
    rw [insertByDesc]
    rcases List.pairwise_cons.mp h with ⟨hy, hys⟩
    split
    · rename_i hle
      refine List.pairwise_cons.mpr ⟨?_, h⟩
      intro z hz
      rcases List.mem_cons.mp hz with rfl | hz
      · exact hle
      · exact le_trans (hy z hz) hle
    · rename_i hgt
      push_neg at hgt
      refine List.pairwise_cons.mpr ⟨?_, ih hys⟩
      intro z hz
      rcases List.mem_cons.mp ((insertByDesc_perm key x ys).mem_iff.mp hz) with rfl | hz
      · exact le_of_lt hgt
      · exact hy z hz

/-- The result of `pySortDesc` is sorted by descending key. -/
theorem pySortDesc_pairwise (key : α → K) (l : List α) :
    (pySortDesc key l).Pairwise (fun a b => key b ≤ key a) := by
  induction l with
  | nil => simp [pySortDesc]
  | cons x xs ih =>
    rw [pySortDesc]
    exact insertByDesc_pairwise key x _ ih

theorem insertByDesc_filter_key (key : α → K) (x : α) (l : List α) (q : K) :
    (insertByDesc key x l).filter (fun a => decide (key a = q)) =
      (x :: l).filter (fun a => decide (key a = q)) := by
  induction l with
  | nil => simp [insertByDesc]
  | cons y ys ih =>
    rw [insertByDesc]
    split
    · rfl
    · rename_i hgt
      push_neg at hgt
      by_cases hx : key x = q
      · have hy : key y ≠ q := by
          intro hyq; rw [hx, hyq] at hgt; exact lt_irrefl q hgt
        calc (y :: insertByDesc key x ys).filter (fun a => decide (key a = q))
            = (insertByDesc key x ys).filter (fun a => decide (key a = q)) := by
              simp [List.filter_cons, hy]
          _ = (x :: ys).filter (fun a => decide (key a = q)) := ih
          _ = (x :: y :: ys).filter (fun a => decide (key a = q)) := by
              simp [List.filter_cons, hy, hx]
      · have h2 : (insertByDesc key x ys).filter (fun a => decide (key a = q))
            = ys.filter (fun a => decide (key a = q)) := by
          rw [ih]; simp [List.filter_cons, hx]
        simp [List.filter_cons, hx, h2]

/-- Stability of `pySortDesc`: for every key value `q`, the elements with key
`q` appear in the sorted output in exactly their original input order. -/
theorem pySortDesc_filter_key (key : α → K) (l : List α) (q : K) :
    (pySortDesc key l).filter (fun a => decide (key a = q)) =
      l.filter (fun a => decide (key a = q)) := by
  induction l with
  | nil => simp [pySortDesc]
  | cons x xs ih =>
    rw [pySortDesc, insertByDesc_filter_key, List.filter_cons, List.filter_cons]
    split <;> simp [ih]

end SortDesc

/- ── Batch chunking (Python slicing loops `for start in range(0, n, size)`) ── -/

/-- Fuel-driven worker for `chunkList` (structural recursion on the fuel so
the function evaluates in the kernel; `chunkList` supplies `l.length`, which
always suffices). -/
def chunkWithFuel (n : Nat) : Nat → List α → List (List α)
  | 0, _ => []
  | _, [] => []
  | fuel + 1, x :: xs => (x :: xs).take n :: chunkWithFuel n fuel (xs.drop (n - 1))

/-- Successive slices `l[start:start+n]` of a list, as produced by the batch
loops of the ranker and reranker. -/
def chunkList (n : Nat) (l : List α) : List (List α) :=
  chunkWithFuel n l.length l

theorem chunkWithFuel_flatten (n : Nat) (hn : 1 ≤ n) :
    ∀ (fuel : Nat) (l : List α), l.length ≤ fuel →
      (chunkWithFuel n fuel l).flatten = l := by
  intro fuel
  induction fuel with
  | zero =>
    intro l hl
    match l with
    | [] => rfl
    | x :: xs => simp at hl
  | succ fuel ih =>
    intro l hl
    match l with
    | [] => rfl
    | x :: xs =>
      rw [chunkWithFuel]
      simp only [List.flatten_cons]
      rw [ih (xs.drop (n - 1)) (by simp [List.length_drop]; simp at hl; omega)]
      have hdrop : xs.drop (n - 1) = (x :: xs).drop n := by
        cases n with
        | zero => omega
        | succ m => simp
      rw [hdrop, List.take_append_drop]

theorem chunkList_join (n : Nat) (hn : 1 ≤ n) (l : List α) :
    (chunkList n l).flatten = l :=
  chunkWithFuel_flatten n hn l.length l le_rfl

theorem zip_map_self (g : α → β) (l : List α) :
    l.zip (l.map g) = l.map (fun a => (a, g a)) := by
  induction l with
  | nil => rfl
  | cons x xs ih => simp [ih]

/- ── Semantic ranker (`_find_relevant_images_semantic`) ────────────── -/

/-- One pass of the embedding-scoring loop of
`_find_relevant_images_semantic`, over the batches of `scorable`.  `embed` is
the oracle for `gemini_client.models.embed_content` (a raised exception is an
`Except.error`), `sim` the similarity scorer applied to the prompt embedding
`pe` and each image embedding.  An exception in any batch aborts the whole
computation, exactly as in the source's `try` block. -/
def scoreChunks {V K : Type} (embed : List String → Except String (List V))
    (sim : V → V → K) (pe : V) :
    List (List (ImageRecord × String)) → Except String (List (K × ImageRecord))
  | [] => .ok []
  | batch :: rest =>
    match embed (batch.map (fun p => p.2)) with
    | .error e => .error e
    | .ok vecs =>
      match scoreChunks embed sim pe rest with
      | .error e => .error e
      | .ok tail =>
        .ok ((batch.zip vecs).map (fun pv => (sim pe pv.2, pv.1.1)) ++ tail)

/-- Embedding of `_find_relevant_images_semantic`.  The vector type `V` and
the similarity scorer `sim` are parameters; the source instantiates them with
Gemini embedding vectors and `_cosine_similarity`.  Every statement proved
below holds for every instantiation. -/
def _find_relevant_images_semantic {V K : Type} [LinearOrder K]
    (embed : List String → Except String (List V)) (sim : V → V → K)
    (prompt : String) (images_data : List ImageRecord)
    (max_images : Nat := MAX_REFERENCE_IMAGES) : List ImageRecord :=
  let scorable := images_data.filterMap (fun img =>
    let t := _build_image_search_text img.analysis_result
    if t = "" then none else some (img, t))
  let fallback_only := images_data.filter
    (fun img => decide (_build_image_search_text img.analysis_result = ""))
  if scorable = [] then images_data.take max_images
  else
    match embed [prompt] with
    | .error _ => images_data.take max_images
    | .ok pevs =>
      match pevs with
      | [] => images_data.take max_images -- `.embeddings[0]` raises, caught below
      | prompt_embedding :: _ =>
        match scoreChunks embed sim prompt_embedding
            (chunkList EMBED_BATCH_SIZE scorable) with
        | .error _ => images_data.take max_images
        | .ok scored =>
          let sorted := pySortDesc (fun p => p.1) scored
          let selected_scored := sorted.take max_images
          let selected_images := selected_scored.map (fun p => p.2)
          if selected_images.length < max_images ∧ fallback_only ≠ [] then
            selected_images ++ fallback_only.take (max_images - selected_images.length)
          else selected_images

theorem scorable_fallback_length (images : List ImageRecord) :
    (images.filterMap (fun img =>
        if _build_image_search_text img.analysis_result = "" then none
        else some (img, _build_image_search_text img.analysis_result))).length
      + (images.filter (fun img =>
          decide (_build_image_search_text img.analysis_result = ""))).length
      = images.length := by
  induction images with
  | nil => simp
  | cons img rest ih =>
    by_cases h : _build_image_search_text img.analysis_result = "" <;>
      simp only [List.filterMap_cons, List.filter_cons, h, if_pos, if_neg,
        decide_eq_true_eq, List.length_cons, if_true, if_false, decide_True,
        decide_False, Bool.false_eq_true, not_false_iff] <;>
      omega

theorem scoreChunks_ok_length {V K : Type}
    (embed : List String → Except String (List V)) (sim : V → V → K) (pe : V)
    (hlen : ∀ ts vs, embed ts = .ok vs → vs.length = ts.length) :
    ∀ (chunks : List (List (ImageRecord × String))) (scored : List (K × ImageRecord)),
      scoreChunks embed sim pe chunks = .ok scored →
      scored.length = chunks.flatten.length := by
  intro chunks
  induction chunks with
  | nil => intro scored h; simp [scoreChunks] at h; simp [← h]
  | cons batch rest ih =>
    intro scored h
    rw [scoreChunks] at h
    cases hb : embed (batch.map (fun p => p.2)) with
    | error e => rw [hb] at h; simp at h
    | ok vecs =>
      rw [hb] at h
      cases hr : scoreChunks embed sim pe rest with
      | error e => rw [hr] at h; simp at h
      | ok tail =>
        rw [hr] at h
        simp only [Except.ok.injEq] at h
        subst h
        have hv := hlen _ _ hb
        simp only [List.length_map] at hv
        simp [List.length_zip, hv, ih tail hr]

/-- Every element of the `scorable` pool has non-empty derived search text. -/
theorem mem_scorable_text_ne (images : List ImageRecord) (p : ImageRecord × String)
    (hp : p ∈ images.filterMap (fun img =>
        if _build_image_search_text img.analysis_result = "" then none
        else some (img, _build_image_search_text img.analysis_result))) :
    _build_image_search_text p.1.analysis_result ≠ "" := by
  rcases List.mem_filterMap.mp hp with ⟨img, _, himg⟩
  by_cases h : _build_image_search_text img.analysis_result = ""
  · simp [h] at himg
  · rw [if_neg h] at himg
    cases himg
    exact h

theorem scoreChunks_det {V K : Type} (f : String → V) (sim : V → V → K) (pe : V) :
    ∀ chunks : List (List (ImageRecord × String)),
      scoreChunks (fun ts => Except.ok (ts.map f)) sim pe chunks =
        .ok (chunks.flatten.map (fun p => (sim pe (f p.2), p.1))) := by
  intro chunks
  induction chunks with
  | nil => simp [scoreChunks]
  | cons batch rest ih =>
    simp only [scoreChunks, ih, List.flatten_cons, List.map_append]
    congr 1
    rw [List.map_map, zip_map_self]
    simp [List.map_map, Function.comp]

/-- C4: for every prompt, candidate image list, and maximum count `N`,
`_find_relevant_images_semantic` never raises (it is a total function by
construction) and returns exactly `min N (number of candidates)` images when
the embedding provider honours its contract (one vector per input text); and
when every embedding call raises, it returns the first `N` candidates in
their original input order. -/
theorem semantic_ranker_never_raises_count {V K : Type} [LinearOrder K]
    (embed : List String → Except String (List V)) (sim : V → V → K)
    (prompt : String) (images_data : List ImageRecord) (max_images : Nat) :
    ((∀ ts vs, embed ts = .ok vs → vs.length = ts.length) →
      (_find_relevant_images_semantic embed sim prompt images_data max_images).length
        = min max_images images_data.length)
    ∧ ((∀ ts, ∃ e, embed ts = .error e) →
      _find_relevant_images_semantic embed sim prompt images_data max_images
        = images_data.take max_images) := by
  constructor
  · intro hlen
    simp only [_find_relevant_images_semantic]
    have hpart := scorable_fallback_length images_data
    split
    · simp [List.length_take]
    · rename_i hsc
      split
      · simp [List.length_take]
      · split
        · simp [List.length_take]
        · rename_i pevs pe rest heq
          split
          · simp [List.length_take]
          · rename_i scored hscored
            have hA : scored.length = (images_data.filterMap (fun img =>
                if _build_image_search_text img.analysis_result = "" then none
                else some (img, _build_image_search_text img.analysis_result))).length := by
              have := scoreChunks_ok_length embed sim pe hlen _ _ hscored
              rwa [chunkList_join EMBED_BATCH_SIZE (by norm_num [EMBED_BATCH_SIZE])] at this
            split
            · rename_i hcond
              have hfb : (images_data.filter (fun img =>
                  decide (_build_image_search_text img.analysis_result = ""))) ≠ [] :=
                hcond.2
              simp only [List.length_append, List.length_map, List.length_take,
                pySortDesc_length]
              omega
            · rename_i hcond
              push_neg at hcond
              simp only [List.length_map, List.length_take, pySortDesc_length] at hcond ⊢
              by_cases hlt : min max_images scored.length < max_images
              · have hfb := hcond hlt
                have hfb0 : (images_data.filter (fun img =>
                    decide (_build_image_search_text img.analysis_result = ""))).length = 0 := by
                  rw [hfb]; rfl
                omega
              · omega
  · intro hfail
    obtain ⟨e, he⟩ := hfail [prompt]
    simp only [_find_relevant_images_semantic, he]
    split <;> rfl


/-- C5: when all embedding calls succeed (modelled by a deterministic
text-to-vector function `f`), `_find_relevant_images_semantic` returns the
analyzed images (`scorable`) sorted in descending order of similarity to the
prompt embedding, stably — the sorted list `ranked` is a permutation of the
scored pool whose equal-score elements keep their original input order —
and the images lacking analyzable metadata (`fallback_only`) are appended
only to fill slots left after the ranked analyzed images, so an unanalyzed
image never precedes an analyzed one. -/
theorem semantic_ranker_order_spec {V K : Type} [LinearOrder K]
    (f : String → V) (sim : V → V → K) (prompt : String)
    (images_data : List ImageRecord) (max_images : Nat)
    (embed : List String → Except String (List V))
    (hembed : embed = fun ts => Except.ok (ts.map f))
    (scorable : List (ImageRecord × String))
    (hscorable : scorable = images_data.filterMap (fun img =>
        if _build_image_search_text img.analysis_result = "" then none
        else some (img, _build_image_search_text img.analysis_result)))
    (fallback_only : List ImageRecord)
    (hfallback : fallback_only = images_data.filter (fun img =>
        decide (_build_image_search_text img.analysis_result = "")))
    (scoredSpec : List (K × ImageRecord))
    (hscored : scoredSpec = scorable.map (fun p => (sim (f prompt) (f p.2), p.1)))
    (ranked : List (K × ImageRecord))
    (hranked : ranked = pySortDesc (fun p => p.1) scoredSpec) :
    (_find_relevant_images_semantic embed sim prompt images_data max_images
        = (ranked.take max_images).map (fun p => p.2)
          ++ fallback_only.take (max_images - (ranked.take max_images).length))
    ∧ List.Perm ranked scoredSpec
    ∧ ranked.Pairwise (fun a b => b.1 ≤ a.1)
    ∧ (∀ q : K, ranked.filter (fun p => decide (p.1 = q))
        = scoredSpec.filter (fun p => decide (p.1 = q)))
    ∧ (∀ img ∈ ranked.map (fun p => p.2),
        _build_image_search_text img.analysis_result ≠ "") := by
  subst hembed hranked hscored hscorable hfallback
  have hperm : List.Perm
      (pySortDesc (fun p : K × ImageRecord => p.1)
        ((images_data.filterMap (fun img =>
          if _build_image_search_text img.analysis_result = "" then none
          else some (img, _build_image_search_text img.analysis_result))).map
            (fun p => (sim (f prompt) (f p.2), p.1))))
      ((images_data.filterMap (fun img =>
          if _build_image_search_text img.analysis_result = "" then none
          else some (img, _build_image_search_text img.analysis_result))).map
            (fun p => (sim (f prompt) (f p.2), p.1))) := pySortDesc_perm _ _
  refine ⟨?_, hperm, pySortDesc_pairwise _ _, fun q => pySortDesc_filter_key _ _ q, ?_⟩
  swap
  · intro img himg
    rcases List.mem_map.mp himg with ⟨p, hp, rfl⟩
    have hp2 := hperm.mem_iff.mp hp
    rcases List.mem_map.mp hp2 with ⟨q, hq, rfl⟩
    exact mem_scorable_text_ne images_data q hq
  by_cases hsc : (images_data.filterMap (fun img =>
      if _build_image_search_text img.analysis_result = "" then none
      else some (img, _build_image_search_text img.analysis_result))) = []
  · -- no analyzed images: the code returns `images_data[:max_images]` and the
    -- normal form collapses to the same list, every image being unanalyzed.
    have hall : ∀ img ∈ images_data,
        _build_image_search_text img.analysis_result = "" := by
      intro img himg
      by_contra hne
      have hsum : (if _build_image_search_text img.analysis_result = "" then none
          else some (img, _build_image_search_text img.analysis_result))
            = some (img, _build_image_search_text img.analysis_result) := if_neg hne
      have hmem2 : (img, _build_image_search_text img.analysis_result) ∈
          images_data.filterMap (fun img =>
            if _build_image_search_text img.analysis_result = "" then none
            else some (img, _build_image_search_text img.analysis_result)) :=
        List.mem_filterMap.mpr ⟨img, himg, hsum⟩
      rw [hsc] at hmem2
      exact absurd hmem2 (List.not_mem_nil _)
    have hfb : images_data.filter (fun img =>
        decide (_build_image_search_text img.analysis_result = "")) = images_data :=
      List.filter_eq_self.mpr (fun img himg => by simp [hall img himg])
    rw [hsc]
    simp only [_find_relevant_images_semantic, hsc, List.map_nil, pySortDesc,
      List.take_nil, List.length_nil, Nat.sub_zero, List.nil_append, hfb]
    simp
  · simp only [_find_relevant_images_semantic, if_neg hsc, List.map_cons,
      List.map_nil, scoreChunks_det,
      chunkList_join EMBED_BATCH_SIZE (by norm_num [EMBED_BATCH_SIZE])]
    split
    · simp [List.length_map]
    · rename_i hcond
      rw [not_and_or] at hcond
      rcases hcond with hlen | hfb
      · push_neg at hlen
        have hz : max_images -
            ((pySortDesc (fun p : K × ImageRecord => p.1)
              ((images_data.filterMap (fun img =>
                if _build_image_search_text img.analysis_result = "" then none
                else some (img, _build_image_search_text img.analysis_result))).map
                  (fun p => (sim (f prompt) (f p.2), p.1)))).take max_images).length
              = 0 := by
          simp only [List.length_map] at hlen
          omega
        rw [hz]
        simp
      · push_neg at hfb
        rw [hfb]
        simp

/-- Concrete instance of `semantic_ranker_never_raises_count` (C4): a
3-element unanalyzed pool with `max_images = 2`, once with a well-behaved
embedding provider and once with an always-raising one. -/
theorem semantic_ranker_never_raises_count_witness :
    ((_find_relevant_images_semantic (V := ℚ) (K := ℚ)
        (fun ts => Except.ok (ts.map (fun _ => (0 : ℚ)))) (fun a b => a * b)
        "red shoe" [⟨"u1", none⟩, ⟨"u2", none⟩, ⟨"u3", none⟩] 2).length
      = min 2 ([⟨"u1", none⟩, ⟨"u2", none⟩, ⟨"u3", none⟩] : List ImageRecord).length)
    ∧ (_find_relevant_images_semantic (V := ℚ) (K := ℚ)
        (fun _ => Except.error "quota exceeded") (fun a b => a * b)
        "red shoe" [⟨"u1", none⟩, ⟨"u2", none⟩, ⟨"u3", none⟩] 2
      = ([⟨"u1", none⟩, ⟨"u2", none⟩, ⟨"u3", none⟩] : List ImageRecord).take 2) :=
  ⟨(semantic_ranker_never_raises_count _ _ _ _ _).1
      (fun ts vs h => by injection h with h2; rw [← h2]; simp),
   (semantic_ranker_never_raises_count _ _ _ _ _).2
      (fun _ => ⟨"quota exceeded", rfl⟩)⟩

/-- Concrete instance of `semantic_ranker_order_spec` (C5): one analyzed and
one unanalyzed image, deterministic embeddings, `max_images = 2`. -/
theorem semantic_ranker_order_spec_witness :
    _find_relevant_images_semantic (V := ℚ) (K := ℚ)
        (fun ts => Except.ok (ts.map (fun s => (s.length : ℚ))))
        (fun a b => a * b) "p"
        [⟨"u1", some ⟨["red shoe"], [], "", "", "", .asStr "", "", ""⟩⟩,
         ⟨"u2", none⟩] 2
      = [⟨"u1", some ⟨["red shoe"], [], "", "", "", .asStr "", "", ""⟩⟩,
         ⟨"u2", none⟩] := by
  have h := semantic_ranker_order_spec (V := ℚ) (K := ℚ)
      (fun s => (s.length : ℚ)) (fun a b => a * b) "p"
      [⟨"u1", some ⟨["red shoe"], [], "", "", "", .asStr "", "", ""⟩⟩,
       ⟨"u2", none⟩] 2 _ rfl _ rfl _ rfl _ rfl _ rfl
  rw [h.1]
  rfl

/- ── `_cosine_similarity` over the reals ───────────────────────────── -/

/-- Embedding of `sum(a * b for a, b in zip(vec_a, vec_b))`. -/
def dotList (vec_a vec_b : List ℝ) : ℝ :=
  ((vec_a.zip vec_b).map (fun p => p.1 * p.2)).sum

/-- Embedding of `sum(a * a for a in vec)`. -/
def sumSquares (vec : List ℝ) : ℝ :=
  (vec.map (fun x => x * x)).sum

/-- Embedding of `sum(a * a for a in vec) ** 0.5`, the vector magnitude. -/
noncomputable def magList (vec : List ℝ) : ℝ :=
  Real.sqrt (sumSquares vec)

/-- Embedding of `_cosine_similarity` with Python floats idealized as real
numbers (exact arithmetic; the float rounding of the source is out of
scope of this model). -/
noncomputable def _cosine_similarity (vec_a vec_b : List ℝ) : ℝ :=
  if magList vec_a = 0 ∨ magList vec_b = 0 then 0
  else dotList vec_a vec_b / (magList vec_a * magList vec_b)

theorem sumSquares_nonneg (vec : List ℝ) : 0 ≤ sumSquares vec := by
  induction vec with
  | nil => simp [sumSquares]
  | cons x xs ih =>
    simp only [sumSquares, List.map_cons, List.sum_cons] at ih ⊢
    nlinarith [sq_nonneg x]

theorem dotList_comm (vec_a vec_b : List ℝ) :
    dotList vec_a vec_b = dotList vec_b vec_a := by
  induction vec_a generalizing vec_b with
  | nil => cases vec_b <;> simp [dotList]
  | cons x xs ih =>
    cases vec_b with
    | nil => simp [dotList]
    | cons y ys =>
      simp only [dotList, List.zip_cons_cons, List.map_cons, List.sum_cons] at ih ⊢
      rw [mul_comm x y, ih ys]

/-- Algebraic step of Cauchy–Schwarz for one more coordinate pair. -/
theorem cs_step (x y d A B : ℝ) (hA : 0 ≤ A) (hB : 0 ≤ B) (hd : d ^ 2 ≤ A * B) :
    (x * y + d) ^ 2 ≤ (x * x + A) * (y * y + B) := by
  rcases eq_or_lt_of_le hA with hA0 | hApos
  · have h2 : d ^ 2 = 0 := le_antisymm (by nlinarith) (sq_nonneg d)
    have hd0 : d = 0 := sq_eq_zero_iff.mp h2
    rw [hd0, ← hA0]
    nlinarith [sq_nonneg x, sq_nonneg y, mul_nonneg (sq_nonneg x) hB]
  · nlinarith [sq_nonneg (A * y - x * d),
      mul_nonneg (sq_nonneg x) (sub_nonneg.mpr hd),
      mul_nonneg (le_of_lt hApos) (sub_nonneg.mpr hd)]

/-- Cauchy–Schwarz for the truncating `zip`-based dot product. -/
theorem dotList_sq_le (vec_a vec_b : List ℝ) :
    (dotList vec_a vec_b) ^ 2 ≤ sumSquares vec_a * sumSquares vec_b := by
  induction vec_a generalizing vec_b with
  | nil =>
    simp [dotList, sumSquares]
  | cons x xs ih =>
    cases vec_b with
    | nil =>
      simp only [dotList, List.zip_nil_right, List.map_nil, List.sum_nil]
      have := mul_nonneg (sumSquares_nonneg (x :: xs)) (sumSquares_nonneg ([] : List ℝ))
      simpa using this
    | cons y ys =>
      have hA := sumSquares_nonneg xs
      have hB := sumSquares_nonneg ys
      have hd := ih ys
      simp only [dotList, sumSquares, List.zip_cons_cons, List.map_cons,
        List.sum_cons] at hd hA hB ⊢
      exact cs_step x y _ _ _ hA hB hd

theorem abs_dotList_le (vec_a vec_b : List ℝ) :
    |dotList vec_a vec_b| ≤ magList vec_a * magList vec_b := by
  rw [magList, magList, ← Real.sqrt_mul (sumSquares_nonneg vec_a)]
  have h := Real.sqrt_le_sqrt (dotList_sq_le vec_a vec_b)
  rwa [Real.sqrt_sq_eq_abs] at h

/-- C6: `_cosine_similarity` equals `dot/(|a|*|b|)` when both magnitudes are
nonzero and `0.0` when either magnitude is zero; it is symmetric; and its
value always lies in `[-1, 1]`. -/
theorem cosine_similarity_spec (vec_a vec_b : List ℝ)
    (_hlen : vec_a.length = vec_b.length) :
    (magList vec_a ≠ 0 → magList vec_b ≠ 0 →
      _cosine_similarity vec_a vec_b
        = dotList vec_a vec_b / (magList vec_a * magList vec_b))
    ∧ ((magList vec_a = 0 ∨ magList vec_b = 0) →
        _cosine_similarity vec_a vec_b = 0)
    ∧ _cosine_similarity vec_a vec_b = _cosine_similarity vec_b vec_a
    ∧ -1 ≤ _cosine_similarity vec_a vec_b
    ∧ _cosine_similarity vec_a vec_b ≤ 1 := by
  have hsymm : _cosine_similarity vec_a vec_b = _cosine_similarity vec_b vec_a := by
    by_cases h : magList vec_a = 0 ∨ magList vec_b = 0
    · rw [_cosine_similarity, _cosine_similarity, if_pos h, if_pos h.symm]
    · rw [_cosine_similarity, _cosine_similarity, if_neg h,
        if_neg (fun hc => h hc.symm), dotList_comm,
        mul_comm (magList vec_b) (magList vec_a)]
  have hbounds : -1 ≤ _cosine_similarity vec_a vec_b
      ∧ _cosine_similarity vec_a vec_b ≤ 1 := by
    by_cases h : magList vec_a = 0 ∨ magList vec_b = 0
    · rw [_cosine_similarity, if_pos h]; norm_num
    · rw [_cosine_similarity, if_neg h]
      push_neg at h
      have hma : 0 < magList vec_a :=
        lt_of_le_of_ne (Real.sqrt_nonneg _) (Ne.symm h.1)
      have hmb : 0 < magList vec_b :=
        lt_of_le_of_ne (Real.sqrt_nonneg _) (Ne.symm h.2)
      have hprod : 0 < magList vec_a * magList vec_b := mul_pos hma hmb
      have habs : |dotList vec_a vec_b / (magList vec_a * magList vec_b)| ≤ 1 := by
        rw [abs_div, abs_of_pos hprod]
        exact (div_le_one hprod).mpr (abs_dotList_le vec_a vec_b)
      exact abs_le.mp habs
  exact ⟨fun ha hb => by rw [_cosine_similarity, if_neg (by tauto)],
    fun h => by rw [_cosine_similarity, if_pos h], hsymm, hbounds.1, hbounds.2⟩

/-- Concrete instance of `cosine_similarity_spec` (C6) at the orthonormal
pair `[1, 0]`, `[0, 1]`. -/
theorem cosine_similarity_spec_witness :
    (magList [(1 : ℝ), 0] ≠ 0 → magList [(0 : ℝ), 1] ≠ 0 →
      _cosine_similarity [(1 : ℝ), 0] [(0 : ℝ), 1]
        = dotList [(1 : ℝ), 0] [(0 : ℝ), 1]
          / (magList [(1 : ℝ), 0] * magList [(0 : ℝ), 1]))
    ∧ ((magList [(1 : ℝ), 0] = 0 ∨ magList [(0 : ℝ), 1] = 0) →
        _cosine_similarity [(1 : ℝ), 0] [(0 : ℝ), 1] = 0)
    ∧ _cosine_similarity [(1 : ℝ), 0] [(0 : ℝ), 1]
        = _cosine_similarity [(0 : ℝ), 1] [(1 : ℝ), 0]
    ∧ -1 ≤ _cosine_similarity [(1 : ℝ), 0] [(0 : ℝ), 1]
    ∧ _cosine_similarity [(1 : ℝ), 0] [(0 : ℝ), 1] ≤ 1 :=
  cosine_similarity_spec [(1 : ℝ), 0] [(0 : ℝ), 1] rfl

/- ── Vision reranker (`_rerank_images_with_vision`) ─────────────────── -/

/-- One row of the parsed `{"scores": […]}` payload; `bad` embeds a row whose
`candidate`/`score` fields fail `int()`/`float()` conversion and is skipped
by the inner `try`/`except continue`. -/
inductive ScoreRow where
  | bad
  | row (candidate : Int) (score : ℚ)
deriving DecidableEq

/-- Outcome of one vision rerank model response: the JSON text fails to parse
(raising inside the parse `try` block), or a list of score rows (an empty or
non-dict payload parses as the empty list). -/
inductive VisionResp where
  | parseFail
  | scores (rows : List ScoreRow)
deriving DecidableEq

/-- Oracle for the effects of `_rerank_images_with_vision`: whether each
image (identified by its position in the input list, embedding CPython's
`id()`-based identity of the row dicts) downloads successfully, and the
outcome of each model call (batch index, attempt number; `none` means the
call raised). -/
structure RerankOracle where
  downloadOk : Nat → Bool
  attempt : Nat → Nat → Option VisionResp

/-- Building `score_map`: rows with convertible fields, later rows overwriting earlier
ones (dict assignment), scores clamped to `[0, 1]`. -/
def buildScoreMap (rows : List ScoreRow) : List (Int × ℚ) :=
  rows.foldl (fun m r => match r with
    | .bad => m
    | .row c s => (c, max 0 (min 1 s)) :: m) []

/-- Embedding of `score_map.get(c, 0.0)`. -/
def lookupScore (m : List (Int × ℚ)) (c : Int) : ℚ :=
  match m.find? (fun p => p.1 == c) with
  | some p => p.2
  | none => 0

/-- The `for attempt in range(1, VISION_RERANK_MAX_RETRIES + 1)` retry loop:
the response of the first successful model call, if any attempt succeeds. -/
def firstSuccessfulAttempt (att : Nat → Option VisionResp) (maxRetries : Nat) :
    Option VisionResp :=
  (List.range' 1 maxRetries).findSome? att

/-- Accumulated state of the batch loop of `_rerank_images_with_vision`:
`scored` collects `(vision_score, (original index, image))` pairs,
`scoredIds` the already-scored indices (`scored_ids`), and `hardFailure` the
`hard_failure` flag. -/
structure RerankState where
  scored : List (ℚ × Nat × ImageRecord)
  scoredIds : List Nat
  hardFailure : Bool
deriving DecidableEq

/-- The batch loop of `_rerank_images_with_vision`: each iteration assigns
1-based candidate numbers to the batch images that have a URL and download
successfully, skips the batch entirely when none do, calls the model with
retries, and either records the parsed per-candidate scores or sets
`hard_failure` and breaks (on retry exhaustion or response parse failure). -/
def rerankBatches (o : RerankOracle) :
    Nat → List (List (Nat × ImageRecord)) → RerankState → RerankState
  | _, [], st => st
  | bIdx, batch :: rest, st =>
    let localImgs : List (Nat × Nat × ImageRecord) := (batch.filter
        (fun p => decide (p.2.image_url ≠ "") && o.downloadOk p.1)).enum.map
      (fun q => (q.1 + 1, q.2))
    if localImgs = [] then rerankBatches o (bIdx + 1) rest st
    else
      match firstSuccessfulAttempt (o.attempt bIdx) VISION_RERANK_MAX_RETRIES with
      | none => { st with hardFailure := true }
      | some .parseFail => { st with hardFailure := true }
      | some (.scores rows) =>
        let m := buildScoreMap rows
        rerankBatches o (bIdx + 1) rest
          { st with
            scored := st.scored
              ++ localImgs.map (fun cp => (lookupScore m (cp.1 : Int), cp.2)),
            scoredIds := st.scoredIds ++ localImgs.map (fun cp => cp.2.1) }

/-- The batch loop run on the whole (indexed) input. -/
def rerankRun (o : RerankOracle) (images_data : List ImageRecord) : RerankState :=
  rerankBatches o 0 (chunkList VISION_RERANK_BATCH_SIZE images_data.enum)
    ⟨[], [], false⟩

/-- Embedding of `_rerank_images_with_vision`. -/
def _rerank_images_with_vision (o : RerankOracle) (images_data : List ImageRecord)
    (max_images : Nat := MAX_REFERENCE_IMAGES) : List ImageRecord :=
  if images_data = [] then []
  else if images_data.length ≤ max_images then images_data.take max_images
  else if (rerankRun o images_data).hardFailure
      ∨ (rerankRun o images_data).scored = [] then
    images_data.take max_images
  else
    let scored := (rerankRun o images_data).scored ++
      (images_data.enum.filter
        (fun p => decide (p.1 ∉ (rerankRun o images_data).scoredIds))).map
          (fun p => ((0 : ℚ), p))
    let sorted := pySortDesc (fun q => q.1) scored
    (sorted.take max_images).map (fun q => q.2.2)

/-- C3: if any batch of `_rerank_images_with_vision` hard-fails (its model
call exhausts the retry count, or its response fails JSON parsing — i.e. the
run ends with `hard_failure` set), the function returns exactly the first
`N` images of its input (the semantic order), discarding all scores from
batches that completed. -/
theorem rerank_hard_failure_semantic_fallback (o : RerankOracle)
    (images_data : List ImageRecord) (max_images : Nat)
    (h : (rerankRun o images_data).hardFailure = true) :
    _rerank_images_with_vision o images_data max_images
      = images_data.take max_images := by
  rw [_rerank_images_with_vision]
  split
  · rename_i h0; rw [h0]; simp
  · split
    · rfl
    · rw [if_pos (Or.inl h)]

/-- Concrete instance of `rerank_hard_failure_semantic_fallback` (C3): four
downloadable images, `max_images = 2`, a model call that raises on every
attempt, so the first batch exhausts its retries. -/
theorem rerank_hard_failure_semantic_fallback_witness :
    ((rerankRun ⟨fun _ => true, fun _ _ => none⟩
        [⟨"u1", none⟩, ⟨"u2", none⟩, ⟨"u3", none⟩, ⟨"u4", none⟩]).hardFailure = true)
    ∧ _rerank_images_with_vision ⟨fun _ => true, fun _ _ => none⟩
        [⟨"u1", none⟩, ⟨"u2", none⟩, ⟨"u3", none⟩, ⟨"u4", none⟩] 2
      = [⟨"u1", none⟩, ⟨"u2", none⟩] :=
  ⟨by decide, by
    rw [rerank_hard_failure_semantic_fallback _ _ _ (by decide)]; rfl⟩


/- ── The shrink-and-retry send loop of `generate_image` (step 4) ────── -/

/-- Embedding of `"400" in err_str or "INVALID_ARGUMENT" in err_str`: the invalid-argument
error class test of `generate_image`. -/
def isInvalidArgErr (err_str : String) : Bool :=
  strOccurs "400" err_str || strOccurs "INVALID_ARGUMENT" err_str

/-- Outcome of the `for attempt in range(2)` send loop of `generate_image`:
`trace` lists the reference-image payloads sent to the provider in order,
`result` the response paired with the images actually sent, or the
propagated error message. -/
structure SendLoopOutcome (Img R : Type) where
  trace : List (List Img)
  result : Except String (R × List Img)

/-- The `for attempt in range(2)` send loop of `generate_image`, unrolled:
in the first iteration `attempt == 0` holds, so an `APIError` whose message
contains `"400"` or `"INVALID_ARGUMENT"` while more than 3 images are queued
shrinks `images_to_send` to its first 3 and loops; in the second iteration
`attempt == 0` is false, so any `APIError` re-raises — i.e. the second
provider outcome is final, written here with `Except.map`.  `provider`
embeds `_generate_with_retry` (whose errors are `APIError`s, carried as
`str(e)`). -/
def generate_image_send_loop {Img R : Type}
    (provider : List Img → Except String R) (reference_images : List Img) :
    SendLoopOutcome Img R :=
  match provider reference_images with
  | .ok r => ⟨[reference_images], .ok (r, reference_images)⟩
  | .error e =>
    if reference_images.length > 3 ∧ isInvalidArgErr e = true then
      ⟨[reference_images, reference_images.take 3],
       (provider (reference_images.take 3)).map
         (fun r => (r, reference_images.take 3))⟩
    else ⟨[reference_images], .error e⟩

theorem send_loop_on_error {Img R : Type}
    (provider : List Img → Except String R) (reference_images : List Img)
    (e : String) (he : provider reference_images = .error e) :
    generate_image_send_loop provider reference_images =
      if reference_images.length > 3 ∧ isInvalidArgErr e = true then
        ⟨[reference_images, reference_images.take 3],
         (provider (reference_images.take 3)).map
           (fun r => (r, reference_images.take 3))⟩
      else ⟨[reference_images], .error e⟩ := by
  rw [generate_image_send_loop, he]

/-- C1: an invalid-argument rejection with more than 3 reference images is
retried exactly once with only the first 3 images, and the second outcome —
success or a second rejection — is final; an invalid-argument rejection with
at most 3 images, or any other `APIError`, propagates with no shrink retry;
and no third attempt ever occurs (at most 2 payloads are sent). -/
theorem generate_image_shrink_retry {Img R : Type}
    (provider : List Img → Except String R) (reference_images : List Img) :
    ((∀ e, provider reference_images = .error e → isInvalidArgErr e = true →
      reference_images.length > 3 →
      (generate_image_send_loop provider reference_images).trace
          = [reference_images, reference_images.take 3]
        ∧ (generate_image_send_loop provider reference_images).result
          = (provider (reference_images.take 3)).map
              (fun r => (r, reference_images.take 3))))
    ∧ (∀ e, provider reference_images = .error e → reference_images.length ≤ 3 →
      generate_image_send_loop provider reference_images
        = ⟨[reference_images], .error e⟩)
    ∧ (∀ e, provider reference_images = .error e → isInvalidArgErr e = false →
      generate_image_send_loop provider reference_images
        = ⟨[reference_images], .error e⟩)
    ∧ (generate_image_send_loop provider reference_images).trace.length ≤ 2 := by
  refine ⟨?_, ?_, ?_, ?_⟩
  · intro e he hinv hlen
    rw [send_loop_on_error provider reference_images e he, if_pos ⟨hlen, hinv⟩]
    exact ⟨rfl, rfl⟩
  · intro e he hlen
    rw [send_loop_on_error provider reference_images e he,
      if_neg (by rintro ⟨h1, _⟩; omega)]
  · intro e he hinv
    rw [send_loop_on_error provider reference_images e he,
      if_neg (by rintro ⟨_, h2⟩; rw [hinv] at h2; exact Bool.false_ne_true h2)]
  · cases hp : provider reference_images with
    | ok r => rw [generate_image_send_loop, hp]; exact Nat.le_succ 1
    | error e =>
      rw [send_loop_on_error provider reference_images e hp]
      split
      · exact le_refl 2
      · exact Nat.le_succ 1

/-- Concrete instance of `generate_image_shrink_retry` (C1): a provider that
rejects any payload with more than 3 images with a `400 INVALID_ARGUMENT`
error and accepts at most 3; a request starting with 10 reference images
succeeds using exactly the first 3 after one retry. -/
theorem generate_image_shrink_retry_witness :
    (generate_image_send_loop
        (fun l : List Nat => if l.length > 3
          then Except.error "400 INVALID_ARGUMENT: request payload rejected"
          else Except.ok "image-bytes")
        [0, 1, 2, 3, 4, 5, 6, 7, 8, 9]).trace
      = [[0, 1, 2, 3, 4, 5, 6, 7, 8, 9], [0, 1, 2]]
    ∧ (generate_image_send_loop
        (fun l : List Nat => if l.length > 3
          then Except.error "400 INVALID_ARGUMENT: request payload rejected"
          else Except.ok "image-bytes")
        [0, 1, 2, 3, 4, 5, 6, 7, 8, 9]).result
      = Except.ok ("image-bytes", [0, 1, 2]) := by
  have h := (generate_image_shrink_retry
      (fun l : List Nat => if l.length > 3
        then Except.error "400 INVALID_ARGUMENT: request payload rejected"
        else Except.ok "image-bytes")
      [0, 1, 2, 3, 4, 5, 6, 7, 8, 9]).1
    "400 INVALID_ARGUMENT: request payload rejected" (by rfl) (by decide) (by decide)
  refine ⟨?_, ?_⟩
  · rw [h.1]; rfl
  · rw [h.2]; rfl

/- ── Credit ledger (`_deduct_credits`) ──────────────────────────────── -/

/-- Embedding of `CREDIT_COSTS["generate_image"]`. -/
def CREDIT_COST_generate_image : Int := 5

structure CreditBalanceRow where
  remaining_credits : Int
  used_credits : Int
deriving DecidableEq

structure CreditTransactionRow where
  user_id : String
  amount : Int
  type : String
  description : String
deriving DecidableEq

structure UsageLogRow where
  user_id : String
  action_type : String
  prompt : Option String
  credits_used : Int
deriving DecidableEq

/-- The per-user slice of the database touched by `_deduct_credits`. -/
structure LedgerDb where
  balance : Option CreditBalanceRow
  credit_transactions : List CreditTransactionRow
  usage_logs : List UsageLogRow
deriving DecidableEq

/-- Which of the four Supabase calls inside `_deduct_credits` raise.  A
raised call is an arbitrary non-HTTP exception (network error, constraint
violation, …). -/
structure LedgerOps where
  readBalanceFails : Bool
  updateBalanceFails : Bool
  insertTxnFails : Bool
  insertUsageFails : Bool
deriving DecidableEq

/-- A Python exception as seen by the handlers of `_deduct_credits`. -/
inductive PyError where
  | httpExc (statusCode : Nat) (detail : String)
  | exc (msg : String)
deriving DecidableEq

/-- An `HTTPException` escaping to the caller. -/
structure HttpError where
  statusCode : Nat
  detail : String
deriving DecidableEq

/-- The `try` body of `_deduct_credits`: read the balance, return on a
missing row, raise HTTP 402 on insufficient credits, then update the balance
and insert the transaction and usage rows.  A raised exception carries the
database state already committed at the raise point (each Supabase write
commits independently). -/
def deductCreditsBody (ops : LedgerOps) (db : LedgerDb)
    (user_id action_type : String) (credits : Int) (prompt : Option String) :
    Except (PyError × LedgerDb) LedgerDb :=
  if ops.readBalanceFails then .error (.exc "balance read failed", db)
  else
    match db.balance with
    | none => .ok db -- no balance row = skip
    | some balance =>
      if balance.remaining_credits < credits then
        .error (.httpExc 402 ("Insufficient credits. Need " ++ toString credits
          ++ ", have " ++ toString balance.remaining_credits
          ++ ". Upgrade your plan for more credits."), db)
      else if ops.updateBalanceFails then .error (.exc "balance update failed", db)
      else
        let newBalance : CreditBalanceRow :=
          { used_credits := balance.used_credits + credits,
            remaining_credits := balance.remaining_credits - credits }
        let db1 := { db with balance := some newBalance }
        if ops.insertTxnFails then .error (.exc "transaction insert failed", db1)
        else
          let txnRow : CreditTransactionRow :=
            { user_id := user_id, amount := -credits,
              type := if strOccurs "generat" action_type then "generation"
                      else "analysis",
              description := action_type ++ ": -" ++ toString credits
                ++ " credits" }
          let db2 :=
            { db1 with credit_transactions := db1.credit_transactions ++ [txnRow] }
          if ops.insertUsageFails then .error (.exc "usage insert failed", db2)
          else
            let usageRow : UsageLogRow :=
              { user_id := user_id, action_type := action_type, prompt := prompt,
                credits_used := credits }
            .ok { db2 with usage_logs := db2.usage_logs ++ [usageRow] }

/-- Embedding of `_deduct_credits`: the body runs under
`except HTTPException: raise` / `except Exception: print warning`, so the
call either completes (possibly having swallowed a non-HTTP exception after
some writes) or re-raises an `HTTPException`. -/
def _deduct_credits (ops : LedgerOps) (db : LedgerDb)
    (user_id action_type : String) (credits : Int) (prompt : Option String) :
    LedgerDb × Option HttpError :=
  match deductCreditsBody ops db user_id action_type credits prompt with
  | .ok db2 => (db2, none)
  | .error (.httpExc code detail, db2) => (db2, some ⟨code, detail⟩)
  | .error (.exc _, db2) => (db2, none)

/-- The response fields of `generate_image` relevant to the ledger claims. -/
structure GenerateResponse where
  id : Option String
  image_url : String
  caption : String
  credits_used : Int
deriving DecidableEq

/-- Steps 8–10 of `generate_image`: after the generated image has been
uploaded and its public URL obtained, save the generation record (failures
swallowed, leaving `generation_id = None`), deduct credits when a user is
logged in (an `HTTPException` re-raises through the endpoint's
`except HTTPException: raise`), and return the response payload. -/
def generate_image_finalize (ops : LedgerOps) (record_insert_fails : Bool)
    (inserted_id : Option String) (hasUser : Bool) (db : LedgerDb)
    (user_id public_url prompt : String) :
    Except HttpError (LedgerDb × GenerateResponse) :=
  let generation_id := if record_insert_fails then none else inserted_id
  if hasUser then
    match _deduct_credits ops db user_id "generate_image"
        CREDIT_COST_generate_image (some prompt) with
    | (_, some h) => .error h
    | (db2, none) =>
      .ok (db2, ⟨generation_id, public_url, prompt, CREDIT_COST_generate_image⟩)
  else .ok (db, ⟨generation_id, public_url, prompt, 0⟩)

/-- If every balance row the read can observe has sufficient credits (or the
read fails, or there is no row), `_deduct_credits` never raises an
`HTTPException`: every other exception is swallowed by its catch-all. -/
theorem deduct_credits_no_http (ops : LedgerOps) (db : LedgerDb)
    (user_id action_type : String) (credits : Int) (prompt : Option String)
    (h : ops.readBalanceFails = false →
      ∀ b, db.balance = some b → credits ≤ b.remaining_credits) :
    (_deduct_credits ops db user_id action_type credits prompt).2 = none := by
  unfold _deduct_credits deductCreditsBody
  cases hr : ops.readBalanceFails with
  | true => simp
  | false =>
    simp only [Bool.false_eq_true, if_false]
    cases hb : db.balance with
    | none => simp
    | some b =>
      have hge := h hr b hb
      have hnl : ¬ (b.remaining_credits < credits) := not_lt.mpr hge
      cases hu : ops.updateBalanceFails <;>
        cases ht : ops.insertTxnFails <;>
          cases hus : ops.insertUsageFails <;> simp [hnl]

/-- C7: for a user whose credit balance row has strictly fewer remaining
credits than the action costs (and a successful balance read),
`_deduct_credits` raises HTTP 402 and performs no writes: the returned
database state is exactly the input state (balance unchanged, no
`credit_transactions` row, no `usage_logs` row inserted). -/
theorem deduct_credits_insufficient_no_writes (ops : LedgerOps) (db : LedgerDb)
    (user_id action_type : String) (credits : Int) (prompt : Option String)
    (b : CreditBalanceRow) (hr : ops.readBalanceFails = false)
    (hb : db.balance = some b) (hlt : b.remaining_credits < credits) :
    _deduct_credits ops db user_id action_type credits prompt
      = (db, some ⟨402, "Insufficient credits. Need " ++ toString credits
          ++ ", have " ++ toString b.remaining_credits
          ++ ". Upgrade your plan for more credits."⟩) := by
  simp [_deduct_credits, deductCreditsBody, hr, hb, hlt]

/-- Concrete instance of `deduct_credits_insufficient_no_writes` (C7):
`remaining_credits = 3`, action costs 5 — the ledger raises 402 and leaves
the database untouched. -/
theorem deduct_credits_insufficient_no_writes_witness :
    _deduct_credits ⟨false, false, false, false⟩ ⟨some ⟨3, 0⟩, [], []⟩
        "user-1" "generate_image" 5 (some "a red shoe")
      = (⟨some ⟨3, 0⟩, [], []⟩, some ⟨402,
          "Insufficient credits. Need 5, have 3. Upgrade your plan for more credits."⟩) := by
  rw [deduct_credits_insufficient_no_writes ⟨false, false, false, false⟩
    ⟨some ⟨3, 0⟩, [], []⟩ "user-1" "generate_image" 5 (some "a red shoe")
    ⟨3, 0⟩ rfl rfl (by decide)]
  rfl

/-- C10: for a user with no `credit_balances` row (and a successful read),
`_deduct_credits` returns immediately without raising and without writing
any `credit_transactions` or `usage_logs` row, and the metered generation
still returns its response to the caller. -/
theorem deduct_credits_no_balance_row_skips (ops : LedgerOps) (db : LedgerDb)
    (user_id action_type public_url prompt : String) (credits : Int)
    (p : Option String) (record_insert_fails : Bool) (inserted_id : Option String)
    (hr : ops.readBalanceFails = false) (hb : db.balance = none) :
    _deduct_credits ops db user_id action_type credits p = (db, none)
    ∧ generate_image_finalize ops record_insert_fails inserted_id true db
        user_id public_url prompt
      = .ok (db, ⟨if record_insert_fails then none else inserted_id,
                  public_url, prompt, CREDIT_COST_generate_image⟩) := by
  have h1 : ∀ (action : String) (cr : Int) (pp : Option String),
      _deduct_credits ops db user_id action cr pp = (db, none) := by
    intro action cr pp
    simp [_deduct_credits, deductCreditsBody, hr, hb]
  refine ⟨h1 _ _ _, ?_⟩
  simp only [generate_image_finalize, if_true]
  rw [h1 "generate_image" CREDIT_COST_generate_image (some prompt)]

/-- Concrete instance of `deduct_credits_no_balance_row_skips` (C10). -/
theorem deduct_credits_no_balance_row_skips_witness :
    _deduct_credits ⟨false, true, true, true⟩ ⟨none, [], []⟩
        "anon" "generate_image" 5 (some "p") = (⟨none, [], []⟩, none)
    ∧ generate_image_finalize ⟨false, true, true, true⟩ false (some "gen-7") true
        ⟨none, [], []⟩ "anon" "https://example.storage/img.png" "p"
      = .ok (⟨none, [], []⟩, ⟨if false then none else some "gen-7",
          "https://example.storage/img.png", "p", CREDIT_COST_generate_image⟩) :=
  deduct_credits_no_balance_row_skips ⟨false, true, true, true⟩ ⟨none, [], []⟩
    "anon" "generate_image" "https://example.storage/img.png" "p" 5 (some "p")
    false (some "gen-7") rfl rfl

/-- C2 counterexample: a failure inside the credit-deduction step can fail
the whole request.  With a successfully generated and uploaded image and a
logged-in user whose balance is 3 < 5, `_deduct_credits` raises HTTP 402 and
`generate_image` re-raises it: the response is an error, not the image URL,
refuting "a failure inside the credit-deduction step never causes the
request to fail". -/
theorem deduct_credits_http402_fails_request :
    generate_image_finalize ⟨false, false, false, false⟩ false (some "gen-1") true
        ⟨some ⟨3, 0⟩, [], []⟩ "user-1" "https://example.storage/generated/img.png"
        "a red shoe"
      = .error ⟨402,
          "Insufficient credits. Need 5, have 3. Upgrade your plan for more credits."⟩ := by
  rfl

/-- C2 (amended): unless `_deduct_credits` raises the insufficient-credit
`HTTPException` (balance row present, read succeeded, remaining credits
below the cost), no failure inside the credit-deduction step fails the
request: every non-HTTP exception is swallowed and the HTTP response still
returns the generated image URL and metadata. -/
theorem generate_finalize_nonhttp_failures_still_return
    (ops : LedgerOps) (record_insert_fails : Bool) (inserted_id : Option String)
    (hasUser : Bool) (db : LedgerDb) (user_id public_url prompt : String)
    (h : ops.readBalanceFails = false →
      ∀ b, db.balance = some b → CREDIT_COST_generate_image ≤ b.remaining_credits) :
    ∃ db2, generate_image_finalize ops record_insert_fails inserted_id hasUser db
        user_id public_url prompt
      = .ok (db2, ⟨if record_insert_fails then none else inserted_id, public_url,
                   prompt, if hasUser then CREDIT_COST_generate_image else 0⟩) := by
  cases hasUser with
  | false => exact ⟨db, rfl⟩
  | true =>
    have h2 := deduct_credits_no_http ops db user_id "generate_image"
      CREDIT_COST_generate_image (some prompt) h
    rcases hd : _deduct_credits ops db user_id "generate_image"
        CREDIT_COST_generate_image (some prompt) with ⟨db2, oe⟩
    rw [hd] at h2
    cases oe with
    | some e => simp at h2
    | none =>
      refine ⟨db2, ?_⟩
      simp only [generate_image_finalize, if_true]
      rw [hd]

/-- Concrete instance of `generate_finalize_nonhttp_failures_still_return`
(C2 amended): both ledger inserts raise, yet the response with the image URL
is returned. -/
theorem generate_finalize_nonhttp_failures_still_return_witness :
    ∃ db2, generate_image_finalize ⟨false, false, true, true⟩ false (some "gen-2")
        true ⟨some ⟨10, 2⟩, [], []⟩ "user-1"
        "https://example.storage/generated/img2.png" "a blue hat"
      = .ok (db2, ⟨if false then none else some "gen-2",
          "https://example.storage/generated/img2.png", "a blue hat",
          if true then CREDIT_COST_generate_image else 0⟩) :=
  generate_finalize_nonhttp_failures_still_return ⟨false, false, true, true⟩ false
    (some "gen-2") true ⟨some ⟨10, 2⟩, [], []⟩ "user-1"
    "https://example.storage/generated/img2.png" "a blue hat"
    (by intro _ b hb
        have hb2 : (⟨10, 2⟩ : CreditBalanceRow) = b := by injection hb
        rw [← hb2]; decide)

/- ── `_generate_with_retry` ─────────────────────────────────────────── -/

/-- Outcome of one `client.models.generate_content` call inside
`_generate_with_retry`: success, a `ServerError` (caught and retried), or
any other exception (propagates uncaught through the `except ServerError`
handler). -/
inductive CallResult (R : Type) where
  | ok (r : R)
  | serverError (e : String)
  | apiOther (e : String)

/-- How `_generate_with_retry` terminates abnormally: `exhausted last` is the
final `raise last_error` after the loop, `uncaught e` an exception the loop
does not catch. -/
inductive RetryError where
  | exhausted (last : Option String)
  | uncaught (e : String)
deriving DecidableEq

/-- Observable behaviour of `_generate_with_retry`: the returned value or
raised error, the attempt numbers at which the call was made, and the
backoff delays slept (in seconds), in order. -/
structure RetryOutcome (R : Type) where
  result : Except RetryError R
  attempts : List Nat
  sleeps : List Nat

/-- The `for attempt in range(1, max_retries + 1)` loop of
`_generate_with_retry`, with `fuel = max_retries + 1 - attempt` made a
structural argument.  On `ServerError` the loop records the error, sleeps
`GEMINI_RETRY_BASE_DELAY ** attempt` seconds when further attempts remain,
and continues; on any other exception it re-raises; when the loop ends it
raises the last recorded error. -/
def retryGo {R : Type} (call : Nat → CallResult R) (max_retries : Nat) :
    Nat → Nat → Option String → RetryOutcome R
  | 0, _, last => ⟨.error (.exhausted last), [], []⟩
  | fuel + 1, attempt, _ =>
    match call attempt with
    | .ok r => ⟨.ok r, [attempt], []⟩
    | .serverError e =>
      let rest := retryGo call max_retries fuel (attempt + 1) (some e)
      ⟨rest.result, attempt :: rest.attempts,
       (if attempt < max_retries then [GEMINI_RETRY_BASE_DELAY ^ attempt] else [])
         ++ rest.sleeps⟩
    | .apiOther e => ⟨.error (.uncaught e), [attempt], []⟩

/-- Embedding of `_generate_with_retry` (attempts start at 1; `max_retries`
iterations in total). -/
def _generate_with_retry {R : Type} (call : Nat → CallResult R)
    (max_retries : Nat := GEMINI_MAX_RETRIES) : RetryOutcome R :=
  retryGo call max_retries max_retries 1 none

theorem retryGo_all_server {R : Type} (call : Nat → CallResult R)
    (max_retries : Nat) (e : Nat → String) :
    ∀ (fuel attempt : Nat) (last : Option String),
      attempt + fuel = max_retries + 1 →
      (∀ i, attempt ≤ i → i ≤ max_retries → call i = .serverError (e i)) →
      retryGo call max_retries fuel attempt last =
        ⟨.error (.exhausted (if fuel = 0 then last else some (e max_retries))),
         List.range' attempt fuel,
         (List.range' attempt (fuel - 1)).map
           (fun a => GEMINI_RETRY_BASE_DELAY ^ a)⟩ := by
  intro fuel
  induction fuel with
  | zero => intro attempt last _ _; simp [retryGo]
  | succ fuel ih =>
    intro attempt last hsum hcall
    have hle : attempt ≤ max_retries := by omega
    simp only [retryGo, hcall attempt le_rfl hle]
    rw [ih (attempt + 1) (some (e attempt)) (by omega) (fun i h1 h2 =>
      hcall i (by omega) h2)]
    rcases Nat.eq_zero_or_pos fuel with hf0 | hfpos
    · subst hf0
      have hat : attempt = max_retries := by omega
      subst hat
      simp [List.range'_succ]
    · have hlt : attempt < max_retries := by omega
      have hf : fuel ≠ 0 := by omega
      simp only [RetryOutcome.mk.injEq]
      refine ⟨?_, ?_, ?_⟩
      · simp [hf]
      · simp [List.range'_succ]
      · rw [if_pos hlt]
        have h1 : fuel + 1 - 1 = (fuel - 1) + 1 := by omega
        rw [h1, List.range'_succ]
        simp

theorem retryGo_success {R : Type} (call : Nat → CallResult R)
    (max_retries : Nat) (e : Nat → String) (k : Nat) (r : R) :
    ∀ (fuel attempt : Nat) (last : Option String),
      attempt + fuel = max_retries + 1 →
      attempt ≤ k → k ≤ max_retries →
      (∀ i, attempt ≤ i → i < k → call i = .serverError (e i)) →
      call k = .ok r →
      retryGo call max_retries fuel attempt last =
        ⟨.ok r, List.range' attempt (k + 1 - attempt),
         (List.range' attempt (k - attempt)).map
           (fun a => GEMINI_RETRY_BASE_DELAY ^ a)⟩ := by
  intro fuel
  induction fuel with
  | zero =>
    intro attempt last hsum hak hkm _ _
    exfalso; omega
  | succ fuel ih =>
    intro attempt last hsum hak hkm hfail hok
    rcases eq_or_lt_of_le hak with hek | hlt
    · subst hek
      simp only [retryGo, hok]
      have h1 : attempt + 1 - attempt = 1 := by omega
      have h2 : attempt - attempt = 0 := by omega
      rw [h1, h2]
      simp [List.range']
    · simp only [retryGo, hfail attempt le_rfl hlt]
      rw [ih (attempt + 1) (some (e attempt)) (by omega) (by omega) hkm
        (fun i hi1 hi2 => hfail i (by omega) hi2) hok]
      simp only [RetryOutcome.mk.injEq]
      refine ⟨trivial, ?_, ?_⟩
      · have h1 : k + 1 - attempt = (k + 1 - (attempt + 1)) + 1 := by omega
        rw [h1, List.range'_succ]
      · rw [if_pos (by omega : attempt < max_retries)]
        have h1 : k - attempt = (k - (attempt + 1)) + 1 := by omega
        rw [h1, List.range'_succ]
        simp

theorem retryGo_attempts_le {R : Type} (call : Nat → CallResult R)
    (max_retries : Nat) :
    ∀ (fuel attempt : Nat) (last : Option String),
      (retryGo call max_retries fuel attempt last).attempts.length ≤ fuel := by
  intro fuel
  induction fuel with
  | zero => intro _ _; simp [retryGo]
  | succ fuel ih =>
    intro attempt last
    cases hc : call attempt with
    | ok r => simp [retryGo, hc]
    | serverError e =>
      simp only [retryGo, hc, List.length_cons]
      have := ih (attempt + 1) (some e)
      omega
    | apiOther e => simp [retryGo, hc]

/-- C9: `_generate_with_retry` retries only on `ServerError`, makes at most
`max_retries` attempts (default `GEMINI_MAX_RETRIES = 3`) sleeping
`GEMINI_RETRY_BASE_DELAY ^ attempt` seconds between attempts, raises the
last server error when every attempt fails, and propagates any non-server
exception immediately without retry. -/
theorem generate_with_retry_policy {R : Type} (call : Nat → CallResult R)
    (max_retries : Nat) (hmax : 1 ≤ max_retries) :
    ((∀ e : Nat → String,
      (∀ i, 1 ≤ i → i ≤ max_retries → call i = .serverError (e i)) →
      _generate_with_retry call max_retries
        = ⟨.error (.exhausted (some (e max_retries))),
           List.range' 1 max_retries,
           (List.range' 1 (max_retries - 1)).map
             (fun a => GEMINI_RETRY_BASE_DELAY ^ a)⟩))
    ∧ (∀ err, call 1 = .apiOther err →
      _generate_with_retry call max_retries = ⟨.error (.uncaught err), [1], []⟩)
    ∧ (∀ (e : Nat → String) (k : Nat) (r : R), 1 ≤ k → k ≤ max_retries →
      (∀ i, 1 ≤ i → i < k → call i = .serverError (e i)) → call k = .ok r →
      _generate_with_retry call max_retries
        = ⟨.ok r, List.range' 1 k,
           (List.range' 1 (k - 1)).map (fun a => GEMINI_RETRY_BASE_DELAY ^ a)⟩)
    ∧ (_generate_with_retry call max_retries).attempts.length ≤ max_retries := by
  refine ⟨?_, ?_, ?_, ?_⟩
  · intro e hcall
    have h := retryGo_all_server call max_retries e max_retries 1 none
      (by omega) hcall
    rw [_generate_with_retry, h]
    have hf : max_retries ≠ 0 := by omega
    simp [hf]
  · intro err h1
    obtain ⟨m, rfl⟩ : ∃ m, max_retries = m + 1 := ⟨max_retries - 1, by omega⟩
    rw [_generate_with_retry]
    simp [retryGo, h1]
  · intro e k r h1k hkm hfail hok
    have h := retryGo_success call max_retries e k r max_retries 1 none
      (by omega) h1k hkm hfail hok
    have hk2 : k + 1 - 1 = k := by omega
    rw [_generate_with_retry, h, hk2]
  · rw [_generate_with_retry]
    exact retryGo_attempts_le call max_retries max_retries 1 none

/-- Concrete instances of `generate_with_retry_policy` (C9) with
`max_retries = 3`: all server errors exhaust the retries and raise the last
one (sleeping 2 s then 4 s); a non-server error propagates at once; one
server error followed by success makes exactly 2 attempts with one 2 s
sleep. -/
theorem generate_with_retry_policy_witness :
    (_generate_with_retry (fun _ => CallResult.serverError (R := String)
        "500 internal error") 3
      = ⟨.error (.exhausted (some "500 internal error")), [1, 2, 3], [2, 4]⟩)
    ∧ (_generate_with_retry (fun _ => CallResult.apiOther (R := String)
        "permission denied") 3
      = ⟨.error (.uncaught "permission denied"), [1], []⟩)
    ∧ (_generate_with_retry (fun i => if i = 1
          then CallResult.serverError (R := String) "503 unavailable"
          else CallResult.ok "image-bytes") 3
      = ⟨.ok "image-bytes", [1, 2], [2]⟩) := by
  refine ⟨?_, ?_, ?_⟩
  · rw [(generate_with_retry_policy (fun _ => CallResult.serverError
        (R := String) "500 internal error") 3 (by omega)).1
      (fun _ => "500 internal error") (fun i h1 h2 => rfl)]
    rfl
  · rw [(generate_with_retry_policy (fun _ => CallResult.apiOther
        (R := String) "permission denied") 3 (by omega)).2.1
      "permission denied" rfl]
  · rw [(generate_with_retry_policy (fun i => if i = 1
          then CallResult.serverError (R := String) "503 unavailable"
          else CallResult.ok "image-bytes") 3 (by omega)).2.2.1
      (fun _ => "503 unavailable") 2 "image-bytes" (by omega) (by omega)
      (fun i hi1 hi2 => by
        have hi : i = 1 := by omega
        rw [hi]
        rfl)
      (by rfl)]
    rfl

/- ── Mention resolver (`_resolve_referenced_dataset_ids`) ───────────── -/

/-- A `datasets` row as selected by the resolver. -/
structure DatasetRow where
  id : String
  name : String
  environment_id : Option String
deriving DecidableEq

/-- An `environments` row as selected by the resolver. -/
structure EnvRow where
  id : String
  name : String
deriving DecidableEq

/-- Embedding of `_normalize_lookup_text`:
`" ".join(value.lower().strip().split())`. -/
def _normalize_lookup_text (value : String) : String :=
  if value = "" then ""
  else String.intercalate " "
    ((value.toLower.split (fun c => c.isWhitespace)).filter (fun s => decide (s ≠ "")))

/-- Python `dict.setdefault(k, []).append(v)` over an insertion-ordered
dict, embedded as an association list. -/
def assocAppend {κ ν : Type} [BEq κ] (acc : List (κ × List ν)) (k : κ) (v : ν) :
    List (κ × List ν) :=
  if acc.any (fun kr => kr.1 == k) then
    acc.map (fun kr => if kr.1 == k then (kr.1, kr.2 ++ [v]) else kr)
  else acc ++ [(k, [v])]

/-- Python `d.get(k)` over the insertion-ordered dict. -/
def assocFind {κ ν : Type} [BEq κ] (acc : List (κ × List ν)) (k : κ) :
    Option (List ν) :=
  (acc.find? (fun kr => kr.1 == k)).map (fun kr => kr.2)

/-- Embedding of `_fuzzy_match_key`; `closeMatch` is the oracle for
`difflib.get_close_matches(…, n=1, cutoff=MENTION_FUZZY_CUTOFF)` (best match
or `none`). -/
def _fuzzy_match_key (closeMatch : String → List String → Option String)
    (query : String) (keys : List String) : Option String :=
  if query = "" ∨ keys = [] then none
  else
    let query_norm := _normalize_lookup_text query
    if keys.contains query_norm then some query_norm
    else closeMatch query_norm keys

/-- Embedding of `_match_dataset_by_name`: exact normalized match, then
substring containment either direction over the insertion-ordered keys, then
fuzzy match. -/
def _match_dataset_by_name (closeMatch : String → List String → Option String)
    (query : String) (datasets : List DatasetRow) : Option DatasetRow :=
  if query = "" ∨ datasets = [] then none
  else
    let query_norm := _normalize_lookup_text query
    let by_norm : List (String × List DatasetRow) := datasets.foldl (fun acc ds =>
      let k := _normalize_lookup_text ds.name
      if k = "" then acc else assocAppend acc k ds) []
    match assocFind by_norm query_norm with
    | some rows => rows.head?
    | none =>
      match by_norm.find? (fun kr =>
          strOccurs query_norm kr.1 || strOccurs kr.1 query_norm) with
      | some kr => kr.2.head?
      | none =>
        match _fuzzy_match_key closeMatch query_norm
            (by_norm.map (fun kr => kr.1)) with
        | some key => (assocFind by_norm key).bind (fun rows => rows.head?)
        | none => none

/-- Embedding of `_resolve_referenced_dataset_ids`.  `extract` is the
(regex-based) `_extract_prompt_dataset_mentions`, `closeMatch` the difflib
oracle, and the two `query…` arguments are the outcomes of the Supabase
`datasets`/`environments` selects (an exception is `Except.error`; both
queries, and everything after them, run inside one `try` whose handler
returns the explicit ids resolved so far). -/
def _resolve_referenced_dataset_ids
    (extract : String → List (String × String) × List String)
    (closeMatch : String → List String → Option String)
    (queryDatasets : Except String (List DatasetRow))
    (queryEnvironments : Except String (List EnvRow))
    (prompt : String)
    (explicit_dataset_ids : List String) : List String :=
  let resolved := explicit_dataset_ids.foldl
    (fun acc ds_id => if ds_id ≠ "" ∧ ds_id ∉ acc then acc ++ [ds_id] else acc) []
  if prompt = "" then resolved
  else
    match queryDatasets, queryEnvironments with
    | .ok datasets, .ok environments =>
      if datasets = [] then resolved
      else
        let env_name_to_ids : List (String × List String) := environments.foldl
          (fun acc env =>
            let k := _normalize_lookup_text env.name
            if k = "" then acc else assocAppend acc k env.id) []
        let datasets_by_env : List (Option String × List DatasetRow) :=
          datasets.foldl (fun acc ds => assocAppend acc ds.environment_id ds) []
        let mentions := extract prompt
        let afterPath := mentions.1.foldl (fun acc em =>
          let env_key := _fuzzy_match_key closeMatch (_normalize_lookup_text em.1)
            (env_name_to_ids.map (fun kr => kr.1))
          let env_ids := match env_key with
            | some k => (assocFind env_name_to_ids k).getD []
            | none => []
          let candidate0 := env_ids.foldl
            (fun cd eid => cd ++ (assocFind datasets_by_env (some eid)).getD []) []
          let candidates := if candidate0 = [] then datasets else candidate0
          match _match_dataset_by_name closeMatch em.2 candidates with
          | some m => if m.id ∉ acc then acc ++ [m.id] else acc
          | none => acc) resolved
        mentions.2.foldl (fun acc mention =>
          match _match_dataset_by_name closeMatch mention datasets with
          | some m => if m.id ∉ acc then acc ++ [m.id] else acc
          | none => acc) afterPath
    | _, _ => resolved

/-- Any fold whose step either keeps the accumulator or appends one element
not yet present preserves `Nodup` and extends the accumulator on the right. -/
theorem foldl_guarded_main {β : Type} (step : List String → β → List String)
    (hstep : ∀ acc x, step acc x = acc ∨ ∃ i, i ∉ acc ∧ step acc x = acc ++ [i]) :
    ∀ (l : List β) (acc : List String), acc.Nodup →
      (l.foldl step acc).Nodup ∧ ∃ d, l.foldl step acc = acc ++ d := by
  intro l
  induction l with
  | nil => intro acc h; exact ⟨h, [], by simp⟩
  | cons x xs ih =>
    intro acc h
    rcases hstep acc x with h1 | ⟨i, hi, h1⟩
    · simp only [List.foldl_cons, h1]
      exact ih acc h
    · simp only [List.foldl_cons, h1]
      have h2 : (acc ++ [i]).Nodup := by
        rw [List.nodup_append]
        exact ⟨h, List.nodup_singleton i, by simpa using hi⟩
      obtain ⟨hn, d, hd⟩ := ih (acc ++ [i]) h2
      exact ⟨hn, i :: d, by rw [hd, List.append_assoc]; rfl⟩

/-- Lemma `foldl_guarded_main` composed over the two mention loops. -/
theorem foldl_guarded_two {β γ : Type} (step1 : List String → β → List String)
    (step2 : List String → γ → List String)
    (h1 : ∀ acc x, step1 acc x = acc ∨ ∃ i, i ∉ acc ∧ step1 acc x = acc ++ [i])
    (h2 : ∀ acc x, step2 acc x = acc ∨ ∃ i, i ∉ acc ∧ step2 acc x = acc ++ [i])
    (l1 : List β) (l2 : List γ) (acc : List String) (h : acc.Nodup) :
    (l2.foldl step2 (l1.foldl step1 acc)).Nodup
    ∧ ∃ d, l2.foldl step2 (l1.foldl step1 acc) = acc ++ d := by
  obtain ⟨hn1, d1, hd1⟩ := foldl_guarded_main step1 h1 l1 acc h
  obtain ⟨hn2, d2, hd2⟩ := foldl_guarded_main step2 h2 l2 _ hn1
  exact ⟨hn2, d1 ++ d2, by rw [hd2, hd1, List.append_assoc]⟩

/-- The explicit-id dedup step keeps or appends a fresh element. -/
theorem explicit_step_guarded : ∀ (acc : List String) (x : String),
    (if x ≠ "" ∧ x ∉ acc then acc ++ [x] else acc) = acc
    ∨ ∃ i, i ∉ acc ∧ (if x ≠ "" ∧ x ∉ acc then acc ++ [x] else acc) = acc ++ [i] := by
  intro acc x
  by_cases hc : x ≠ "" ∧ x ∉ acc
  · exact Or.inr ⟨x, hc.2, if_pos hc⟩
  · exact Or.inl (if_neg hc)

/-- Membership in the deduplicated explicit-id list. -/
theorem explicit_fold_mem (l : List String) :
    ∀ (acc : List String) (x : String),
      x ∈ l.foldl (fun acc i => if i ≠ "" ∧ i ∉ acc then acc ++ [i] else acc) acc
      ↔ x ∈ acc ∨ (x ∈ l ∧ x ≠ "") := by
  induction l with
  | nil => intro acc x; simp
  | cons y ys ih =>
    intro acc x
    simp only [List.foldl_cons]
    by_cases hy : y ≠ "" ∧ y ∉ acc
    · rw [if_pos hy, ih]
      by_cases hxy : x = y
      · subst hxy
        simp [hy.1]
      · simp only [List.mem_append, List.mem_singleton, List.mem_cons, hxy,
          false_or, or_false]
        tauto
    · rw [if_neg hy, ih]
      push_neg at hy
      constructor
      · rintro (h0 | ⟨hmem, hne⟩)
        · exact Or.inl h0
        · exact Or.inr ⟨List.mem_cons_of_mem y hmem, hne⟩
      · rintro (h0 | ⟨hmem, hne⟩)
        · exact Or.inl h0
        · rcases List.mem_cons.mp hmem with rfl | h2
          · exact Or.inl (hy hne)
          · exact Or.inr ⟨h2, hne⟩

/-- C8: `_resolve_referenced_dataset_ids` returns an ordered list with no
duplicate identifiers, in which the deduplicated explicit identifiers `E`
form a prefix (every explicitly supplied identifier precedes every
prompt-derived one); `E` contains exactly the non-empty explicit ids; and if
either store lookup raises, the function returns only `E` — it never raises
(it is a total function by construction). -/
theorem resolve_referenced_dataset_ids_spec
    (extract : String → List (String × String) × List String)
    (closeMatch : String → List String → Option String)
    (queryDatasets : Except String (List DatasetRow))
    (queryEnvironments : Except String (List EnvRow))
    (prompt : String) (explicit_dataset_ids : List String)
    (E : List String)
    (hE : E = explicit_dataset_ids.foldl
      (fun acc ds_id => if ds_id ≠ "" ∧ ds_id ∉ acc then acc ++ [ds_id] else acc) []) :
    (_resolve_referenced_dataset_ids extract closeMatch queryDatasets
        queryEnvironments prompt explicit_dataset_ids).Nodup
    ∧ (∃ d, _resolve_referenced_dataset_ids extract closeMatch queryDatasets
        queryEnvironments prompt explicit_dataset_ids = E ++ d)
    ∧ (∀ x, x ∈ E ↔ x ∈ explicit_dataset_ids ∧ x ≠ "")
    ∧ (((∃ e, queryDatasets = .error e) ∨ (∃ e, queryEnvironments = .error e)) →
      _resolve_referenced_dataset_ids extract closeMatch queryDatasets
        queryEnvironments prompt explicit_dataset_ids = E) := by
  have hE0 : E.Nodup := by
    rw [hE]
    exact (foldl_guarded_main _ explicit_step_guarded explicit_dataset_ids []
      List.nodup_nil).1
  have hmain : (_resolve_referenced_dataset_ids extract closeMatch queryDatasets
        queryEnvironments prompt explicit_dataset_ids).Nodup
      ∧ ∃ d, _resolve_referenced_dataset_ids extract closeMatch queryDatasets
        queryEnvironments prompt explicit_dataset_ids = E ++ d := by
    simp only [_resolve_referenced_dataset_ids]
    rw [← hE]
    by_cases hp : prompt = ""
    · rw [if_pos hp]
      exact ⟨hE0, [], by simp⟩
    · rw [if_neg hp]
      cases queryDatasets with
      | error e => cases queryEnvironments <;> exact ⟨hE0, [], by simp⟩
      | ok datasets =>
        cases queryEnvironments with
        | error e => exact ⟨hE0, [], by simp⟩
        | ok environments =>
          dsimp only
          by_cases hd : datasets = []
          · rw [if_pos hd]
            exact ⟨hE0, [], by simp⟩
          · rw [if_neg hd]
            refine foldl_guarded_two _ _ ?_ ?_ _ _ E hE0
            · intro acc em
              dsimp only
              split
              · rename_i m hm
                by_cases hmem : m.id ∉ acc
                · exact Or.inr ⟨m.id, hmem, if_pos hmem⟩
                · exact Or.inl (if_neg hmem)
              · exact Or.inl rfl
            · intro acc mention
              dsimp only
              split
              · rename_i m hm
                by_cases hmem : m.id ∉ acc
                · exact Or.inr ⟨m.id, hmem, if_pos hmem⟩
                · exact Or.inl (if_neg hmem)
              · exact Or.inl rfl
  have hmem3 : ∀ x, x ∈ E ↔ x ∈ explicit_dataset_ids ∧ x ≠ "" := by
    intro x
    rw [hE, explicit_fold_mem explicit_dataset_ids [] x]
    simp
  have herr : ((∃ e, queryDatasets = .error e)
      ∨ (∃ e, queryEnvironments = .error e)) →
      _resolve_referenced_dataset_ids extract closeMatch queryDatasets
        queryEnvironments prompt explicit_dataset_ids = E := by
    intro hq
    simp only [_resolve_referenced_dataset_ids]
    rw [← hE]
    by_cases hp : prompt = ""
    · rw [if_pos hp]
    · rw [if_neg hp]
      rcases hq with ⟨e, he⟩ | ⟨e, he⟩
      · rw [he]
      · rw [he]; cases queryDatasets <;> rfl
  exact ⟨hmain.1, hmain.2, hmem3, herr⟩

/-- Concrete instance of `resolve_referenced_dataset_ids_spec` (C8): one
explicit id (with an empty and a duplicate entry dropped), one plain
`@Product` mention against a two-dataset store. -/
theorem resolve_referenced_dataset_ids_spec_witness :
    (_resolve_referenced_dataset_ids (fun _ => ([], ["Product"]))
        (fun _ _ => none)
        (Except.ok [⟨"ds-1", "Product", none⟩, ⟨"ds-2", "Other", none⟩])
        (Except.ok []) "show @Product in studio" ["ds-2", "", "ds-2"]).Nodup
    ∧ (∃ d, _resolve_referenced_dataset_ids (fun _ => ([], ["Product"]))
        (fun _ _ => none)
        (Except.ok [⟨"ds-1", "Product", none⟩, ⟨"ds-2", "Other", none⟩])
        (Except.ok []) "show @Product in studio" ["ds-2", "", "ds-2"]
      = ["ds-2"] ++ d)
    ∧ (∀ x, x ∈ (["ds-2"] : List String)
        ↔ x ∈ (["ds-2", "", "ds-2"] : List String) ∧ x ≠ "")
    ∧ (((∃ e, (Except.ok [⟨"ds-1", "Product", none⟩, ⟨"ds-2", "Other", none⟩]
          : Except String (List DatasetRow)) = .error e)
        ∨ (∃ e, (Except.ok [] : Except String (List EnvRow)) = .error e)) →
      _resolve_referenced_dataset_ids (fun _ => ([], ["Product"]))
        (fun _ _ => none)
        (Except.ok [⟨"ds-1", "Product", none⟩, ⟨"ds-2", "Other", none⟩])
        (Except.ok []) "show @Product in studio" ["ds-2", "", "ds-2"]
      = ["ds-2"]) :=
  resolve_referenced_dataset_ids_spec (fun _ => ([], ["Product"]))
    (fun _ _ => none)
    (Except.ok [⟨"ds-1", "Product", none⟩, ⟨"ds-2", "Other", none⟩])
    (Except.ok []) "show @Product in studio" ["ds-2", "", "ds-2"]
    ["ds-2"] (by decide)
